/-
  Verification of the woodwatch peer-liveness engine against its
  natural-language specification.

  The definitions below are a shallow embedding of the Go sources:
  * internal/states (PeerState, upState, downState, maybeState, Heartbeat)
  * internal/webhook (Event, Event.Valid, Hook, Hook.Dispatch)
  * the woodwatch package (PeerConfig, Config, Config.Valid, newPeer,
    loadPeers, Server.updatePeer, Server.checkPeer, Server.Listen,
    Server.Close)

  Go `uint` arithmetic is modelled as Nat with an explicit modulus 2^64
  where the source increments a counter. Times are modelled as Int
  (nanoseconds), so `time.Since(x) = now - x` is ordinary subtraction.
-/
import Mathlib

namespace Woodwatch

/-- The modulus of Go's 64-bit `uint` type: increments of `uint` counters
in the source wrap modulo this value. -/
def goUintMod : Nat := 2 ^ 64

/-- Embeds `states.limits`: the `upThreshold`/`downThreshold` pair carried
by every peer state. -/
structure Limits where
  upThreshold : Nat
  downThreshold : Nat
deriving DecidableEq, Repr

/-- Embeds the `states.PeerState` values: the concrete types `upState`,
`downState` and the generic `maybeState` with its `name`, `returnSeen`,
`returnState`, `nextState`, `count` and `threshold` fields. -/
inductive PeerState where
  | upState (lim : Limits)
  | downState (lim : Limits)
  | maybeState (name : String) (returnSeen : Bool)
      (returnState : PeerState) (nextState : PeerState)
      (count : Nat) (threshold : Nat)
deriving DecidableEq, Repr

/-- Embeds `states.maybeUpState`: a transitional state counting toward
`Up`, resetting to `Down` when a timeout (seen = false) occurs. The
`count` field starts at the Go zero value 0. -/
def maybeUpState (lim : Limits) : PeerState :=
  .maybeState "Maybe Up" true (.downState lim) (.upState lim) 0 lim.upThreshold

/-- Embeds `states.maybeDownState`: a transitional state counting toward
`Down`, resetting to `Up` when the peer is seen. -/
def maybeDownState (lim : Limits) : PeerState :=
  .maybeState "Maybe Down" false (.upState lim) (.downState lim) 0 lim.downThreshold

/-- Embeds the three `Heartbeat` methods of `upState`, `downState` and
`maybeState`. The `maybeState` case resets to `returnState` when the
observation matches `returnSeen`, otherwise increments `count` (as a Go
uint) and confirms into `nextState` with a notable flag once the
incremented count reaches `threshold`. -/
def PeerState.Heartbeat : PeerState → Bool → PeerState × Bool
  | .upState lim, seen =>
      if !seen then (maybeDownState lim, false) else (.upState lim, false)
  | .downState lim, seen =>
      if seen then (maybeUpState lim, false) else (.downState lim, false)
  | .maybeState n rs rst nst c t, seen =>
      if (rs && !seen) || (!rs && seen) then (rst, false)
      else
        let c' := (c + 1) % goUintMod
        if t ≤ c' then (nst, true)
        else (.maybeState n rs rst nst c' t, false)

/-- Embeds the `String()` methods: "Up", "Down", and for a transitional
state `fmt.Sprintf("%s (%d of %d)", name, count+1, threshold)` (the
displayed count is the uint `count+1`). -/
def stateString : PeerState → String
  | .upState _ => "Up"
  | .downState _ => "Down"
  | .maybeState n _ _ _ c t =>
      n ++ " (" ++ toString ((c + 1) % goUintMod) ++ " of " ++ toString t ++ ")"

/-- Embeds `states.NewPeer`: a freshly constructed peer state machine
starts in `downState` with the given thresholds. -/
def NewPeer (upThreshold downThreshold : Nat) : PeerState :=
  .downState ⟨upThreshold, downThreshold⟩

/-- Runs the state machine over a list of observations, keeping only the
final state. -/
def run (s : PeerState) : List Bool → PeerState
  | [] => s
  | b :: bs => run (s.Heartbeat b).1 bs

/-- Runs the state machine over a list of observations, recording each
intermediate `(state, notable)` result in order. -/
def steps (s : PeerState) : List Bool → List (PeerState × Bool)
  | [] => []
  | b :: bs => s.Heartbeat b :: steps (s.Heartbeat b).1 bs

/-- The observable trace of a run: the display string and notable flag of
every successive heartbeat result. -/
def displayTrace (s : PeerState) (obs : List Bool) : List (String × Bool) :=
  (steps s obs).map fun r => (stateString r.1, r.2)

/-- Whether a state is transitional (a `maybeState`). -/
def isTransitional : PeerState → Bool
  | .maybeState _ _ _ _ _ _ => true
  | _ => false

/-- The running count a transitional state shows in its display form
(`count+1` as a Go uint); 0 for baseline states. -/
def displayCount : PeerState → Nat
  | .maybeState _ _ _ _ c _ => (c + 1) % goUintMod
  | _ => 0

/-- The `threshold` field of a transitional state; 0 for baseline states. -/
def thresholdOf : PeerState → Nat
  | .maybeState _ _ _ _ _ t => t
  | _ => 0

/-- Replaces the `count` field of a transitional state; identity on
baseline states. Used to speak about a `maybeUpState`/`maybeDownState`
with an arbitrary accumulated count. -/
def withCount : PeerState → Nat → PeerState
  | .maybeState n rs rst nst _ t, c => .maybeState n rs rst nst c t
  | s, _ => s

/-- Embeds the error values of the woodwatch packages; each constructor
stands for one Go sentinel error (or one family of errors produced by an
external-collaborator call, carrying the offending input). -/
inductive Err where
  | tooFewPeers
  | noPeerName
  | noPeerNetwork
  | invalidDuration (s : String)
  | invalidCIDR (s : String)
  | emptyListenAddress
  | serverAlreadyListening
  | serverNotListening
  | listenPacketFailed
  | emptyEventTitle
  | emptyNewState
  | emptyPrevState
deriving DecidableEq, Repr

/-- Embeds `webhook.Event`. Times (`Timestamp`, `LastSeen`) are modelled
as Int nanoseconds. -/
structure Event where
  title : String
  text : String
  timestamp : Int
  lastSeen : Int
  newState : String
  prevState : String
deriving DecidableEq, Repr

/-- Embeds `webhook.Event.Valid`: an empty `Title`, `NewState` or
`PrevState` yields the corresponding sentinel error, checked in that
order. -/
def Event.Valid (e : Event) : Option Err :=
  if e.title = "" then some .emptyEventTitle
  else if e.newState = "" then some .emptyNewState
  else if e.prevState = "" then some .emptyPrevState
  else none

/-- Embeds `webhook.Hook`: a webhook target URL. -/
abbrev Hook := String

/-- Embeds `webhook.Hook.Dispatch`. The Go function returns nothing; its
observable effect is the POST it performs, modelled as the target URL and
event POSTed, or `none` when the invalid event is silently dropped. (JSON
marshalling of this struct cannot fail; the HTTP transport is an external
collaborator.) -/
def Hook.Dispatch (h : Hook) (e : Event) : Option (Hook × Event) :=
  match e.Valid with
  | some _ => none
  | none => some (h, e)

/-- Embeds `woodwatch.PeerConfig`. -/
structure PeerConfig where
  Name : String
  Network : String
  UpThreshold : Nat
  DownThreshold : Nat
  Webhook : String
deriving DecidableEq, Repr

/-- Embeds `PeerConfig.Valid`. -/
def PeerConfig.Valid (pc : PeerConfig) : Option Err :=
  if pc.Name = "" then some .noPeerName
  else if pc.Network = "" then some .noPeerNetwork
  else none

/-- Embeds `woodwatch.Config`. -/
structure Config where
  UpThreshold : Nat
  DownThreshold : Nat
  MonitorCycle : String
  PeerTimeout : String
  Webhook : String
  Peers : List PeerConfig
deriving DecidableEq, Repr

/-- The numeric value of a run of decimal digit characters. -/
def digitsToNat (l : List Char) : Nat :=
  l.foldl (fun a ch => a * 10 + (ch.toNat - 48)) 0

/-- Nanosecond multiplier of a Go duration unit suffix. -/
def durationUnitMult : List Char → Option Int
  | ['n', 's'] => some 1
  | ['u', 's'] => some 1000
  | ['m', 's'] => some 1000000
  | ['s'] => some 1000000000
  | ['m'] => some 60000000000
  | ['h'] => some 3600000000000
  | _ => none

/-- Models the Go standard library `time.ParseDuration` (an external
collaborator), restricted to the forms this repository's configs use: the
literal "0", or a nonempty run of decimal digits followed by one unit.
Returns the duration in nanoseconds. -/
def parseDuration (s : String) : Option Int :=
  if s = "0" then some 0
  else
    let ds := s.data.takeWhile Char.isDigit
    let us := s.data.dropWhile Char.isDigit
    if ds = [] then none
    else
      match durationUnitMult us with
      | none => none
      | some m => some ((digitsToNat ds : Int) * m)

/-- The per-peer validation loop of `Config.Valid`: the first error among
the peer configs, in order. -/
def firstPeerErr : List PeerConfig → Option Err
  | [] => none
  | pc :: rest =>
      match pc.Valid with
      | some e => some e
      | none => firstPeerErr rest

/-- Embeds `Config.Valid`: no peers is `ErrTooFewPeers`; then each
`PeerConfig.Valid` in order; then both duration strings must parse. -/
def Config.Valid (c : Config) : Option Err :=
  if c.Peers.isEmpty then some .tooFewPeers
  else
    match firstPeerErr c.Peers with
    | some e => some e
    | none =>
        match parseDuration c.MonitorCycle with
        | none => some (.invalidDuration c.MonitorCycle)
        | some _ =>
            match parseDuration c.PeerTimeout with
            | none => some (.invalidDuration c.PeerTimeout)
            | some _ => none

/-- An IPv4 network: the base address (already masked) and the prefix
length, modelling Go's `net.IPNet` for this repository's use. -/
structure IPNet where
  base : Nat
  maskBits : Nat
deriving DecidableEq, Repr

/-- One dotted-quad octet: nonempty digits with value at most 255. -/
def parseOctet (l : List Char) : Option Nat :=
  if l ≠ [] ∧ l.all Char.isDigit = true ∧ digitsToNat l ≤ 255 then
    some (digitsToNat l)
  else none

/-- A dotted-quad IPv4 address as a 32-bit value. -/
def parseIPv4 (l : List Char) : Option Nat :=
  match l.splitOn '.' with
  | [a, b, c, d] =>
      match parseOctet a, parseOctet b, parseOctet c, parseOctet d with
      | some x, some y, some z, some w =>
          some (((x * 256 + y) * 256 + z) * 256 + w)
      | _, _, _, _ => none
  | _ => none

/-- An IPv4 prefix length: nonempty digits with value at most 32. -/
def parsePrefixLen (l : List Char) : Option Nat :=
  if l ≠ [] ∧ l.all Char.isDigit = true ∧ digitsToNat l ≤ 32 then
    some (digitsToNat l)
  else none

/-- Models the Go standard library `net.ParseCIDR` (an external
collaborator) for the IPv4 "a.b.c.d/n" inputs this repository uses: the
returned network keeps the leading `n` bits of the address. Any input not
of that shape fails to parse. -/
def parseCIDR (s : String) : Option IPNet :=
  match s.data.splitOn '/' with
  | [addr, mask] =>
      match parseIPv4 addr, parsePrefixLen mask with
      | some ip, some n => some ⟨ip / 2 ^ (32 - n) * 2 ^ (32 - n), n⟩
      | _, _ => none
  | _ => none

/-- Models `net.IPNet.Contains` for IPv4: the address is in the network
when its leading `maskBits` bits agree with the base address. -/
def contains (net : IPNet) (ip : Nat) : Bool :=
  decide (ip / 2 ^ (32 - net.maskBits) = net.base / 2 ^ (32 - net.maskBits))

/-- Models `net.ParseIP` for dotted-quad IPv4 inputs. -/
def parseIP (s : String) : Option Nat :=
  parseIPv4 s.data

/-- Embeds `woodwatch.peer`: the per-peer record held by the server.
`lastSeen` is an Int nanosecond timestamp (Go zero value 0). -/
structure Peer where
  Name : String
  Network : IPNet
  Webhook : Option Hook
  upThreshold : Nat
  downThreshold : Nat
  lastSeen : Int
  state : PeerState
deriving DecidableEq, Repr

/-- Embeds `woodwatch.newPeer`: parses the CIDR network and constructs
the peer with initial state `states.NewPeer(up, down)`. -/
def newPeer (name network : String) (upThreshold downThreshold : Nat)
    (hook : Option Hook) : Except Err Peer :=
  match parseCIDR network with
  | none => .error (.invalidCIDR network)
  | some net =>
      .ok { Name := name, Network := net, Webhook := hook,
            upThreshold := upThreshold, downThreshold := downThreshold,
            lastSeen := 0, state := NewPeer upThreshold downThreshold }

/-- The construction loop of `loadPeers`: resolves per-peer overrides
(nonzero/nonempty override wins, else the global value), constructs each
peer in order, and aborts with `(nil, err)` on the first failure. -/
def buildPeers (c : Config) : List PeerConfig → List Peer × Option Err
  | [] => ([], none)
  | pc :: rest =>
      let up := if pc.UpThreshold = 0 then c.UpThreshold else pc.UpThreshold
      let down := if pc.DownThreshold = 0 then c.DownThreshold else pc.DownThreshold
      let hookURL := if pc.Webhook = "" then c.Webhook else pc.Webhook
      let hook : Option Hook := if hookURL = "" then none else some hookURL
      match newPeer pc.Name pc.Network up down hook with
      | .error e => ([], some e)
      | .ok p =>
          match buildPeers c rest with
          | (ps, none) => (p :: ps, none)
          | (_, some e) => ([], some e)

/-- Embeds `woodwatch.loadPeers`: validates the config, then builds the
peers; `(nil, err)` on any failure. -/
def loadPeers (c : Config) : List Peer × Option Err :=
  match c.Valid with
  | some e => ([], some e)
  | none => buildPeers c c.Peers

/-- Embeds `woodwatch.Server`. `conn` models the `*icmp.PacketConn` as an
opaque handle; `closeSignals` counts the values sent on `closeChan`. -/
structure Server where
  verbose : Bool
  listenAddress : String
  conn : Option Nat
  peers : List Peer
  closeSignals : Nat
  monitorCycle : Int
  peerTimeout : Int
deriving DecidableEq, Repr

/-- Embeds the synchronous phase of `Server.Listen`. The
`icmp.ListenPacket` bind is an external collaborator whose outcome is
passed in as `lp` (`none`: the bind failed). On a successful bind the
connection is stored; the subsequent blocking packet loop is outside this
model. -/
def Server.Listen (s : Server) (lp : Option Nat) : Server × Option Err :=
  if s.listenAddress = "" then (s, some .emptyListenAddress)
  else if s.conn.isSome then (s, some .serverAlreadyListening)
  else
    match lp with
    | none => ({ s with conn := none }, some .listenPacketFailed)
    | some conn => ({ s with conn := some conn }, none)

/-- Embeds `Server.Close`: with no connection it fails with
`ErrServerNotListening`; otherwise it signals the monitoring goroutine on
`closeChan` and closes the connection (the external `conn.Close()` result
is modelled as success). -/
def Server.Close (s : Server) : Server × Option Err :=
  match s.conn with
  | none => (s, some .serverNotListening)
  | some _ => ({ s with closeSignals := s.closeSignals + 1 }, none)

/-- The peer-list traversal of `Server.updatePeer`: the first peer whose
network contains the source address gets `lastSeen` set to the current
time; the loop breaks there, and an unmatched address changes nothing. -/
def updatePeers (now : Int) (ip : Nat) : List Peer → List Peer
  | [] => []
  | p :: rest =>
      if contains p.Network ip then { p with lastSeen := now } :: rest
      else p :: updatePeers now ip rest

/-- Embeds `Server.updatePeer` at the server level. -/
def Server.updatePeer (s : Server) (now : Int) (ip : Nat) : Server :=
  { s with peers := updatePeers now ip s.peers }

/-- The event built in `Server.checkPeer`; the Go time formatting of the
last-seen timestamp (`prettyLastSeen`) is modelled as its decimal
rendering. -/
def mkEvent (now : Int) (name : String) (lastSeen : Int)
    (oldState newState : String) : Event :=
  { title := "Peer " ++ name ++ " is " ++ newState
  , text := name ++ " (last seen " ++ toString lastSeen ++ ") was previously "
      ++ oldState ++ " and is now " ++ newState
  , timestamp := now
  , lastSeen := lastSeen
  , newState := newState
  , prevState := oldState }

/-- Embeds `Server.checkPeer`: computes the observation
`time.Since(lastSeen) < peerTimeout`, runs the heartbeat, commits the new
state onto the peer, and returns the event exactly when the source
dispatches it (noteworthy, or a state-string change under the verbose
flag). -/
def Server.checkPeer (s : Server) (now : Int) (p : Peer) : Peer × Option Event :=
  let seen := decide (now - p.lastSeen < s.peerTimeout)
  let oldState := stateString p.state
  let r := p.state.Heartbeat seen
  let newState := stateString r.1
  let event := mkEvent now p.Name p.lastSeen oldState newState
  let p' := { p with state := r.1 }
  if r.2 then (p', some event)
  else if oldState ≠ newState ∧ s.verbose = true then (p', some event)
  else (p', none)

/-- Concrete fixtures used by the witnesses and concrete examples. -/
def netA : IPNet := (parseCIDR "10.0.0.0/24").getD ⟨0, 0⟩

def netB : IPNet := (parseCIDR "10.0.0.0/16").getD ⟨0, 0⟩

def peerA : Peer :=
  { Name := "A", Network := netA, Webhook := none, upThreshold := 3,
    downThreshold := 2, lastSeen := 0, state := NewPeer 3 2 }

def peerB : Peer :=
  { Name := "B", Network := netB, Webhook := none, upThreshold := 3,
    downThreshold := 2, lastSeen := 0, state := NewPeer 3 2 }

def ipExample : Nat := (parseIP "10.0.0.5").getD 0

def cfgEmpty : Config :=
  { UpThreshold := 3, DownThreshold := 2, MonitorCycle := "2s",
    PeerTimeout := "4s", Webhook := "", Peers := [] }

def cfgBadCIDR : Config :=
  { UpThreshold := 3, DownThreshold := 2, MonitorCycle := "2s",
    PeerTimeout := "4s", Webhook := "",
    Peers := [{ Name := "A", Network := "bogus", UpThreshold := 0,
                DownThreshold := 0, Webhook := "" }] }

def srvNoAddr : Server :=
  { verbose := false, listenAddress := "", conn := none, peers := [],
    closeSignals := 0, monitorCycle := 2, peerTimeout := 4 }

def srvListening : Server :=
  { verbose := false, listenAddress := "whatever", conn := some 7,
    peers := [], closeSignals := 0, monitorCycle := 2, peerTimeout := 4 }

def evNoTitle : Event :=
  { title := "", text := "t", timestamp := 0, lastSeen := 0,
    newState := "Up", prevState := "Down" }

/-- The shape invariant of states reachable from `NewPeer u d`: baseline
states carry the limits `⟨u, d⟩`, and transitional states are exactly the
`maybeUpState`/`maybeDownState` forms over those limits with an internal
count strictly below their threshold. -/
def Good (u d : Nat) : PeerState → Prop
  | .upState lim => lim = ⟨u, d⟩
  | .downState lim => lim = ⟨u, d⟩
  | .maybeState n rs rst nst c t =>
      c < t ∧
      ((n = "Maybe Up" ∧ rs = true ∧ rst = .downState ⟨u, d⟩ ∧
          nst = .upState ⟨u, d⟩ ∧ t = u) ∨
        (n = "Maybe Down" ∧ rs = false ∧ rst = .upState ⟨u, d⟩ ∧
          nst = .downState ⟨u, d⟩ ∧ t = d))

lemma good_newPeer (u d : Nat) : Good u d (NewPeer u d) := rfl

/-- A corroborating observation (equal to `returnSeen`) in a transitional
state takes the increment-or-confirm branch of `Heartbeat`. -/
lemma heartbeat_maybe_corroborate (n : String) (rs : Bool) (rst nst : PeerState)
    (c t : Nat) :
    (PeerState.maybeState n rs rst nst c t).Heartbeat rs =
      if t ≤ (c + 1) % goUintMod then (nst, true)
      else (.maybeState n rs rst nst ((c + 1) % goUintMod) t, false) := by
  cases rs <;> rfl

/-- A contradicting observation (the negation of `returnSeen`) in a
transitional state takes the reset branch of `Heartbeat`. -/
lemma heartbeat_maybe_contradict (n : String) (rs : Bool) (rst nst : PeerState)
    (c t : Nat) :
    (PeerState.maybeState n rs rst nst c t).Heartbeat (!rs) = (rst, false) := by
  cases rs <;> rfl

lemma good_heartbeat (u d : Nat) (hu : 1 ≤ u) (hd : 1 ≤ d)
    (hub : u < goUintMod) (hdb : d < goUintMod)
    (s : PeerState) (hs : Good u d s) (b : Bool) :
    Good u d (s.Heartbeat b).1 := by
  cases s with
  | upState lim =>
      simp only [Good] at hs
      subst hs
      cases b with
      | true => exact rfl
      | false => exact ⟨hd, Or.inr ⟨rfl, rfl, rfl, rfl, rfl⟩⟩
  | downState lim =>
      simp only [Good] at hs
      subst hs
      cases b with
      | false => exact rfl
      | true => exact ⟨hu, Or.inl ⟨rfl, rfl, rfl, rfl, rfl⟩⟩
  | maybeState n rs rst nst c t =>
      obtain ⟨hct, hcase⟩ := hs
      have htb : t < goUintMod := by
        rcases hcase with ⟨-, -, -, -, ht⟩ | ⟨-, -, -, -, ht⟩ <;> omega
      have hmod : (c + 1) % goUintMod = c + 1 := Nat.mod_eq_of_lt (by omega)
      by_cases hb : b = rs
      · subst hb
        rw [heartbeat_maybe_corroborate, hmod]
        by_cases hconf : t ≤ c + 1
        · rw [if_pos hconf]
          rcases hcase with ⟨-, -, -, hnst, -⟩ | ⟨-, -, -, hnst, -⟩ <;>
            subst hnst <;> exact rfl
        · rw [if_neg hconf]
          exact ⟨by omega, hcase⟩
      · have hb' : b = !rs := by cases b <;> cases rs <;> simp_all
        subst hb'
        rw [heartbeat_maybe_contradict]
        rcases hcase with ⟨-, -, hrst, -, -⟩ | ⟨-, -, hrst, -, -⟩ <;>
          subst hrst <;> exact rfl

lemma good_run (u d : Nat) (hu : 1 ≤ u) (hd : 1 ≤ d)
    (hub : u < goUintMod) (hdb : d < goUintMod) :
    ∀ (obs : List Bool) (s : PeerState), Good u d s → Good u d (run s obs) := by
  intro obs
  induction obs with
  | nil => intro s hs; exact hs
  | cons b bs ih =>
      intro s hs
      exact ih _ (good_heartbeat u d hu hd hub hdb s hs b)

lemma run_up_replicate (lim : Limits) (n : Nat) :
    run (.upState lim) (List.replicate n true) = .upState lim := by
  induction n with
  | zero => rfl
  | succ k ih => simpa [List.replicate_succ, run, PeerState.Heartbeat] using ih

lemma run_down_replicate (lim : Limits) (n : Nat) :
    run (.downState lim) (List.replicate n false) = .downState lim := by
  induction n with
  | zero => rfl
  | succ k ih => simpa [List.replicate_succ, run, PeerState.Heartbeat] using ih

lemma steps_up_replicate (lim : Limits) (n : Nat) :
    steps (.upState lim) (List.replicate n true) =
      List.replicate n (.upState lim, false) := by
  induction n with
  | zero => rfl
  | succ k ih =>
      simpa [List.replicate_succ, steps, PeerState.Heartbeat] using ih

lemma steps_down_replicate (lim : Limits) (n : Nat) :
    steps (.downState lim) (List.replicate n false) =
      List.replicate n (.downState lim, false) := by
  induction n with
  | zero => rfl
  | succ k ih =>
      simpa [List.replicate_succ, steps, PeerState.Heartbeat] using ih

lemma good_transitional_bounds (u d : Nat) (hub : u < goUintMod)
    (hdb : d < goUintMod) (st : PeerState) (hg : Good u d st)
    (ht : isTransitional st = true) :
    1 ≤ displayCount st ∧ displayCount st ≤ thresholdOf st := by
  cases st with
  | upState lim => simp [isTransitional] at ht
  | downState lim => simp [isTransitional] at ht
  | maybeState n rs rst nst c t =>
      obtain ⟨hct, hcase⟩ := hg
      have htb : t < goUintMod := by
        rcases hcase with ⟨-, -, -, -, h⟩ | ⟨-, -, -, -, h⟩ <;> omega
      have hmod : (c + 1) % goUintMod = c + 1 := Nat.mod_eq_of_lt (by omega)
      simp only [displayCount, thresholdOf, hmod]
      omega

lemma buildPeers_fail (c : Config) :
    ∀ l : List PeerConfig, (∃ pc ∈ l, parseCIDR pc.Network = none) →
      ∃ s, buildPeers c l = ([], some (.invalidCIDR s)) := by
  intro l
  induction l with
  | nil => rintro ⟨pc, hpc, -⟩; simp at hpc
  | cons pc rest ih =>
      rintro ⟨q, hq, hqp⟩
      by_cases hhead : parseCIDR pc.Network = none
      · refine ⟨pc.Network, ?_⟩
        simp only [buildPeers, newPeer, hhead]
      · rcases List.mem_cons.mp hq with hq' | hq'
        · subst hq'; exact absurd hqp hhead
        · obtain ⟨s, hs⟩ := ih ⟨q, hq', hqp⟩
          obtain ⟨net, hnet⟩ := Option.ne_none_iff_exists'.mp hhead
          refine ⟨s, ?_⟩
          simp only [buildPeers, newPeer, hnet, hs]

/-- C1 (counterexample): the spec's concrete sequences are wrong on the
code. With `up=3, down=2`, from `Down` the three observations
`[true,true,true]` do not end in `Up`/notable, and from `Up` the two
observations `[false,false]` do not end in `Down`/notable: the code needs
one further corroborating observation in each case. -/
theorem confirmation_timing_cex :
    displayTrace (NewPeer 3 2) [true, true, true] ≠
      [("Maybe Up (1 of 3)", false), ("Maybe Up (2 of 3)", false),
        ("Up", true)] ∧
    displayTrace (.upState ⟨3, 2⟩) [false, false] ≠
      [("Maybe Down (1 of 2)", false), ("Down", true)] :=
  ⟨by decide, by decide⟩

/-- C1 (amended): a transitional state with internal count `c` and
threshold `t` confirms into its target with notable=true exactly on the
corroborating observation that makes `c+1` reach `t`; since the display
form shows `c+1`, confirmation fires on the observation received while
displaying `(t of t)`. Concretely with `up=3, down=2`: from `Down`,
`[true,true,true,true]` yields `[MaybeUp(1,3)/false, MaybeUp(2,3)/false,
MaybeUp(3,3)/false, Up/true]`, and from `Up`, `[false,false,false]`
yields `[MaybeDown(1,2)/false, MaybeDown(2,2)/false, Down/true]`. -/
theorem confirmation_timing_amended :
    (∀ (n : String) (rs : Bool) (rst nst : PeerState) (c t : Nat),
        c + 1 < goUintMod →
        (t ≤ c + 1 →
          (PeerState.maybeState n rs rst nst c t).Heartbeat rs = (nst, true)) ∧
        (c + 1 < t →
          (PeerState.maybeState n rs rst nst c t).Heartbeat rs =
            (.maybeState n rs rst nst (c + 1) t, false))) ∧
    displayTrace (NewPeer 3 2) [true, true, true, true] =
      [("Maybe Up (1 of 3)", false), ("Maybe Up (2 of 3)", false),
        ("Maybe Up (3 of 3)", false), ("Up", true)] ∧
    displayTrace (.upState ⟨3, 2⟩) [false, false, false] =
      [("Maybe Down (1 of 2)", false), ("Maybe Down (2 of 2)", false),
        ("Down", true)] := by
  refine ⟨?_, by decide, by decide⟩
  intro n rs rst nst c t hc
  have hmod : (c + 1) % goUintMod = c + 1 := Nat.mod_eq_of_lt hc
  refine ⟨fun hconf => ?_, fun hlt => ?_⟩
  · rw [heartbeat_maybe_corroborate, hmod, if_pos hconf]
  · rw [heartbeat_maybe_corroborate, hmod, if_neg (by omega)]

/-- Witness for C1's amended theorem: the transitional state displaying
`(3 of 3)` (internal count 2, threshold 3) confirms into `Up`/notable on
the next corroborating observation. -/
theorem confirmation_timing_amended_witness :
    (PeerState.maybeState "Maybe Up" true (.downState ⟨3, 2⟩)
        (.upState ⟨3, 2⟩) 2 3).Heartbeat true = (.upState ⟨3, 2⟩, true) :=
  (confirmation_timing_amended.1 "Maybe Up" true (.downState ⟨3, 2⟩)
      (.upState ⟨3, 2⟩) 2 3 (by norm_num [goUintMod])).1 (by norm_num)

/-- C2 (counterexample): with upThreshold 0 the state reached from a new
peer by a single seen observation is transitional with displayed count 1
and threshold 0, violating `count ≤ threshold`. -/
theorem transitional_count_bounds_cex :
    isTransitional (run (NewPeer 0 2) [true]) = true ∧
    displayCount (run (NewPeer 0 2) [true]) = 1 ∧
    thresholdOf (run (NewPeer 0 2) [true]) = 0 ∧
    ¬ displayCount (run (NewPeer 0 2) [true]) ≤
        thresholdOf (run (NewPeer 0 2) [true]) :=
  ⟨by decide, by decide, by decide, by decide⟩

/-- C2 (amended): for thresholds that are nonzero uint values, every
state reachable from a newly constructed peer state machine that is
transitional has its displayed running count between 1 and its threshold
inclusive. -/
theorem transitional_count_bounds (u d : Nat) (hu : 1 ≤ u) (hd : 1 ≤ d)
    (hub : u < goUintMod) (hdb : d < goUintMod) (obs : List Bool)
    (ht : isTransitional (run (NewPeer u d) obs) = true) :
    1 ≤ displayCount (run (NewPeer u d) obs) ∧
      displayCount (run (NewPeer u d) obs) ≤
        thresholdOf (run (NewPeer u d) obs) :=
  good_transitional_bounds u d hub hdb _
    (good_run u d hu hd hub hdb obs _ (good_newPeer u d)) ht

/-- Witness for C2's amended theorem at `up=3, down=2` after one seen
observation. -/
theorem transitional_count_bounds_witness :
    1 ≤ displayCount (run (NewPeer 3 2) [true]) ∧
      displayCount (run (NewPeer 3 2) [true]) ≤
        thresholdOf (run (NewPeer 3 2) [true]) :=
  transitional_count_bounds 3 2 (by decide) (by decide) (by decide)
    (by decide) [true] (by decide)

/-- C3 (counterexample): with upThreshold 1 (resp. downThreshold 1) a
single corroborating observation from the baseline state does not yield
the confirmed baseline state: it yields the transitional state displaying
`(1 of 1)` with notable=false. -/
theorem immediate_confirmation_cex :
    isTransitional ((NewPeer 1 2).Heartbeat true).1 = true ∧
    ((NewPeer 1 2).Heartbeat true).2 = false ∧
    stateString ((NewPeer 1 2).Heartbeat true).1 = "Maybe Up (1 of 1)" ∧
    isTransitional ((PeerState.upState ⟨2, 1⟩).Heartbeat false).1 = true ∧
    stateString ((PeerState.upState ⟨2, 1⟩).Heartbeat false).1 =
      "Maybe Down (1 of 1)" :=
  ⟨by decide, by decide, by decide, by decide, by decide⟩

/-- C3 (amended): with a threshold of 0 or 1 the first corroborating
observation received while in the transitional state confirms
immediately; from the opposite baseline state two corroborating
observations reach the confirmed state (the first enters the transitional
state unnotably, the second confirms notably). -/
theorem immediate_confirmation_amended (u d : Nat) :
    (u ≤ 1 →
      (maybeUpState ⟨u, d⟩).Heartbeat true = (.upState ⟨u, d⟩, true) ∧
      steps (NewPeer u d) [true, true] =
        [(maybeUpState ⟨u, d⟩, false), (.upState ⟨u, d⟩, true)]) ∧
    (d ≤ 1 →
      (maybeDownState ⟨u, d⟩).Heartbeat false = (.downState ⟨u, d⟩, true) ∧
      steps (.upState ⟨u, d⟩) [false, false] =
        [(maybeDownState ⟨u, d⟩, false), (.downState ⟨u, d⟩, true)]) := by
  have hmod : (0 + 1) % goUintMod = 1 :=
    Nat.mod_eq_of_lt (by norm_num [goUintMod])
  constructor
  · intro hu
    have hb : (maybeUpState ⟨u, d⟩).Heartbeat true = (.upState ⟨u, d⟩, true) := by
      rw [maybeUpState, heartbeat_maybe_corroborate, if_pos]
      rw [hmod]
      exact hu
    refine ⟨hb, ?_⟩
    calc steps (NewPeer u d) [true, true]
        = [(maybeUpState ⟨u, d⟩, false), (maybeUpState ⟨u, d⟩).Heartbeat true] :=
          rfl
      _ = [(maybeUpState ⟨u, d⟩, false), (.upState ⟨u, d⟩, true)] := by rw [hb]
  · intro hd
    have hb : (maybeDownState ⟨u, d⟩).Heartbeat false =
        (.downState ⟨u, d⟩, true) := by
      rw [maybeDownState, heartbeat_maybe_corroborate, if_pos]
      rw [hmod]
      exact hd
    refine ⟨hb, ?_⟩
    calc steps (.upState ⟨u, d⟩) [false, false]
        = [(maybeDownState ⟨u, d⟩, false),
            (maybeDownState ⟨u, d⟩).Heartbeat false] := rfl
      _ = [(maybeDownState ⟨u, d⟩, false), (.downState ⟨u, d⟩, true)] := by
          rw [hb]

/-- Witness for C3's amended theorem at thresholds `up=1, down=1`. -/
theorem immediate_confirmation_amended_witness :
    (maybeUpState ⟨1, 1⟩).Heartbeat true = (.upState ⟨1, 1⟩, true) ∧
    steps (NewPeer 1 1) [true, true] =
      [(maybeUpState ⟨1, 1⟩, false), (.upState ⟨1, 1⟩, true)] ∧
    (maybeDownState ⟨1, 1⟩).Heartbeat false = (.downState ⟨1, 1⟩, true) := by
  obtain ⟨h1, h2⟩ := (immediate_confirmation_amended 1 1).1 (by norm_num)
  obtain ⟨h3, -⟩ := (immediate_confirmation_amended 1 1).2 (by norm_num)
  exact ⟨h1, h2, h3⟩

/-- C7: a single contradicting observation in a transitional state (any
count, any thresholds) resets exactly to the corresponding baseline state
with the original thresholds and notable=false. -/
theorem transitional_reset (lim : Limits) (c : Nat) :
    (withCount (maybeUpState lim) c).Heartbeat false = (.downState lim, false) ∧
    (withCount (maybeDownState lim) c).Heartbeat true = (.upState lim, false) :=
  ⟨heartbeat_maybe_contradict "Maybe Up" true (.downState lim) (.upState lim)
      c lim.upThreshold,
    heartbeat_maybe_contradict "Maybe Down" false (.upState lim)
      (.downState lim) c lim.downThreshold⟩

/-- C8: the baseline states are fixed points of same-direction
observations — `Up` under seen, `Down` under not-seen — with
notable=false, so arbitrarily many repeated same-direction observations
stay in the baseline state and never produce a notable result. -/
theorem baseline_idempotent (lim : Limits) (n : Nat) :
    (PeerState.upState lim).Heartbeat true = (.upState lim, false) ∧
    (PeerState.downState lim).Heartbeat false = (.downState lim, false) ∧
    run (.upState lim) (List.replicate n true) = .upState lim ∧
    run (.downState lim) (List.replicate n false) = .downState lim ∧
    ((steps (.upState lim) (List.replicate n true)).all
        fun r => r.2 == false) = true ∧
    ((steps (.downState lim) (List.replicate n false)).all
        fun r => r.2 == false) = true := by
  refine ⟨rfl, rfl, run_up_replicate lim n, run_down_replicate lim n, ?_, ?_⟩
  · rw [steps_up_replicate]
    simp [List.all_eq_true, List.mem_replicate]
  · rw [steps_down_replicate]
    simp [List.all_eq_true, List.mem_replicate]

/-- C4: registry construction is all-or-nothing with the specified error
taxonomy: zero peers fails with `ErrTooFewPeers`; and for a config that
passes `Config.Valid`, any peer whose address range fails to parse as
CIDR makes `loadPeers` return a nil peer list together with an
invalid-address-range error. -/
theorem loadPeers_all_or_nothing (c : Config) :
    (c.Peers = [] → loadPeers c = ([], some .tooFewPeers)) ∧
    (c.Valid = none → (∃ pc ∈ c.Peers, parseCIDR pc.Network = none) →
      (loadPeers c).1 = [] ∧
        ∃ s, (loadPeers c).2 = some (.invalidCIDR s)) := by
  constructor
  · intro h
    simp [loadPeers, Config.Valid, h]
  · intro hv hex
    obtain ⟨s, hs⟩ := buildPeers_fail c c.Peers hex
    refine ⟨?_, s, ?_⟩ <;> simp [loadPeers, hv, hs]

/-- Witness for C4 at a zero-peer config and at an otherwise valid config
with the unparsable range "bogus". -/
theorem loadPeers_all_or_nothing_witness :
    loadPeers cfgEmpty = ([], some .tooFewPeers) ∧
    (loadPeers cfgBadCIDR).1 = [] ∧
      (∃ s, (loadPeers cfgBadCIDR).2 = some (.invalidCIDR s)) :=
  ⟨(loadPeers_all_or_nothing cfgEmpty).1 rfl,
    (loadPeers_all_or_nothing cfgBadCIDR).2 (by decide) (by decide)⟩

/-- C5: address routing is first-match-wins in declaration order: the
first peer whose network contains the source address has its `lastSeen`
set, later peers are untouched, an unmatched address changes nothing, and
concretely `[A: 10.0.0.0/24, B: 10.0.0.0/16]` routes `10.0.0.5` to `A`
even though `B` also contains it. -/
theorem updatePeer_first_match :
    (∀ (now : Int) (ip : Nat) (pre : List Peer) (p : Peer) (post : List Peer),
        (∀ q ∈ pre, contains q.Network ip = false) →
        contains p.Network ip = true →
        updatePeers now ip (pre ++ p :: post) =
          pre ++ { p with lastSeen := now } :: post) ∧
    (∀ (now : Int) (ip : Nat) (l : List Peer),
        (∀ q ∈ l, contains q.Network ip = false) →
        updatePeers now ip l = l) ∧
    contains netA ipExample = true ∧ contains netB ipExample = true ∧
    updatePeers 5 ipExample [peerA, peerB] =
      [{ peerA with lastSeen := 5 }, peerB] := by
  refine ⟨?_, ?_, by decide, by decide, by decide⟩
  · intro now ip pre p post
    induction pre with
    | nil =>
        intro hpre hp
        simp [updatePeers, hp]
    | cons q rest ih =>
        intro hpre hp
        have hq : contains q.Network ip = false :=
          hpre q (List.mem_cons_self q rest)
        have htail := ih (fun r hr => hpre r (List.mem_cons_of_mem q hr)) hp
        simp only [List.cons_append, updatePeers, hq, Bool.false_eq_true,
          if_false, List.append_eq, htail]
  · intro now ip l
    induction l with
    | nil => intro hl; rfl
    | cons q rest ih =>
        intro hl
        have hq : contains q.Network ip = false :=
          hl q (List.mem_cons_self q rest)
        have htail := ih fun r hr => hl r (List.mem_cons_of_mem q hr)
        simp only [updatePeers, hq, Bool.false_eq_true, if_false, htail]

/-- Witness for C5: routing `10.0.0.5` through `[A: 10.0.0.0/24,
B: 10.0.0.0/16]` updates `A` only. -/
theorem updatePeer_first_match_witness :
    updatePeers 5 ipExample [peerA, peerB] =
      [{ peerA with lastSeen := 5 }, peerB] :=
  updatePeer_first_match.1 5 ipExample [] peerA [peerB]
    (by simp) (by decide)

/-- C6: the check loop forwards the event exactly when the heartbeat is
notable, or the old and new state strings differ and the verbose flag is
set; in every other case no event is forwarded. -/
theorem checkPeer_dispatch_policy (s : Server) (now : Int) (p : Peer) :
    ((s.checkPeer now p).2).isSome =
      ((p.state.Heartbeat (decide (now - p.lastSeen < s.peerTimeout))).2 ||
        (decide (stateString p.state ≠ stateString
            (p.state.Heartbeat
              (decide (now - p.lastSeen < s.peerTimeout))).1) &&
          s.verbose)) := by
  simp only [Server.checkPeer]
  split_ifs with h1 h2 <;> simp_all

/-- C9: out-of-order lifecycle calls fail with the sentinel errors and
leave the server unchanged: `Listen` with an empty address returns
`ErrEmptyListenAddress`; `Listen` while already listening returns
`ErrServerAlreadyListening`; `Close` without a connection returns
`ErrServerNotListening`. -/
theorem server_lifecycle_guards (s : Server) (lp : Option Nat) :
    (s.listenAddress = "" → s.Listen lp = (s, some .emptyListenAddress)) ∧
    (s.listenAddress ≠ "" → s.conn.isSome = true →
      s.Listen lp = (s, some .serverAlreadyListening)) ∧
    (s.conn = none → s.Close = (s, some .serverNotListening)) := by
  refine ⟨fun h => ?_, fun h1 h2 => ?_, fun h => ?_⟩
  · simp [Server.Listen, h]
  · simp [Server.Listen, h1, h2]
  · simp [Server.Close, h]

/-- Witness for C9 on concrete servers (empty address / already
listening / never listened). -/
theorem server_lifecycle_guards_witness :
    srvNoAddr.Listen none = (srvNoAddr, some .emptyListenAddress) ∧
    srvListening.Listen none = (srvListening, some .serverAlreadyListening) ∧
    srvNoAddr.Close = (srvNoAddr, some .serverNotListening) :=
  ⟨(server_lifecycle_guards srvNoAddr none).1 rfl,
    (server_lifecycle_guards srvListening none).2.1 (by decide) rfl,
    (server_lifecycle_guards srvNoAddr none).2.2 rfl⟩

/-- C10: `Event.Valid` returns `ErrEmptyEventTitle`, `ErrEmptyNewState`,
`ErrEmptyPrevState` in that order (and nil otherwise), and
`Hook.Dispatch` silently drops any structurally invalid event: no POST is
performed and no error is signalled. -/
theorem event_validation_dispatch (e : Event) (h : Hook) :
    (e.title = "" → e.Valid = some .emptyEventTitle) ∧
    (e.title ≠ "" → e.newState = "" → e.Valid = some .emptyNewState) ∧
    (e.title ≠ "" → e.newState ≠ "" → e.prevState = "" →
      e.Valid = some .emptyPrevState) ∧
    (e.title ≠ "" → e.newState ≠ "" → e.prevState ≠ "" → e.Valid = none) ∧
    ((e.title = "" ∨ e.newState = "" ∨ e.prevState = "") →
      h.Dispatch e = none) := by
  refine ⟨fun h1 => ?_, fun h1 h2 => ?_, fun h1 h2 h3 => ?_,
    fun h1 h2 h3 => ?_, fun hbad => ?_⟩
  · simp [Event.Valid, h1]
  · simp [Event.Valid, h1, h2]
  · simp [Event.Valid, h1, h2, h3]
  · simp [Event.Valid, h1, h2, h3]
  · have hv : e.Valid ≠ none := by
      rcases hbad with h1 | h1 | h1 <;> simp [Event.Valid, h1] <;>
        split_ifs <;> simp
    rcases how : e.Valid with _ | err
    · exact absurd how hv
    · simp [Hook.Dispatch, how]

/-- Witness for C10 on a concrete event with an empty title. -/
theorem event_validation_dispatch_witness :
    Event.Valid evNoTitle = some .emptyEventTitle ∧
    Hook.Dispatch "http://example.com/hook" evNoTitle = none :=
  ⟨(event_validation_dispatch evNoTitle "http://example.com/hook").1 rfl,
    (event_validation_dispatch evNoTitle "http://example.com/hook").2.2.2.2
      (Or.inl rfl)⟩

end Woodwatch
